import Mathlib

/-!
Verification of the native-function argument marshaling subsystem and the
companion formatted text builder of the kuroko embedding demo.

The demo source (src/demo.c) only *calls* `krk_parseArgs`,
`krk_pushStringBuilderFormat` and `krk_discardStringBuilder`; the bodies of
those library routines are not part of the repository's sources.  They are
therefore modelled here from the specification (sections 3, 4.1, 4.2, 4.3,
6 and 7), while the control flow of the demo's own native functions
(`yet_more_args` in particular) is embedded directly from src/demo.c.
-/

namespace KurokoDemo

/-- Modelled from the spec: a runtime dynamic value of the scripting runtime
("any runtime dynamic value").  Primitives are none, booleans, integers and
floats; strings and class instances are heap-allocated objects.  The float
payload is represented by a rational number: no claim depends on binary
floating-point rounding. -/
inductive KrkValue where
  | none
  | bool (b : Bool)
  | int  (n : Int)
  | dbl  (q : Rat)
  | str  (s : String)
  | obj  (cls : String) (id : Nat)
deriving DecidableEq, Repr

/-- Modelled from the spec: which values are heap-allocated objects.  The
spec ("Primitive values are not heap objects", demo.c comment lines 95-97)
excludes ints, bools, floats and none; strings and instances are heap
objects. -/
def isHeapObject : KrkValue → Bool
  | .str _ => true
  | .obj _ _ => true
  | _ => false

/-- Modelled from the spec: the type name of a value, as produced by the
`%T` text-builder directive ("type-name-of-value"). -/
def typeName : KrkValue → String
  | .none => "NoneType"
  | .bool _ => "bool"
  | .int _ => "int"
  | .dbl _ => "float"
  | .str _ => "str"
  | .obj cls _ => cls

/-- Modelled from the spec: the debug representation of a value, as produced
by the `%R` text-builder directive ("debug-representation-of-value").  The
exact rendering of heap objects is unspecified; the model uses a fixed
scheme so the function is executable. -/
def reprValue : KrkValue → String
  | .none => "None"
  | .bool b => if b then "True" else "False"
  | .int n => toString n
  | .dbl q => toString q
  | .str s => "'" ++ s ++ "'"
  | .obj cls _ => "<" ++ cls ++ " object>"

/-- Modelled from the spec: the type codes of the argument format string
(section 6): value-passthrough `V`, integer `i`, float `d`, string `s`,
string-or-none `z`, heap-object `O`, and `N` (an optional value, normally
paired with a presence boolean via `?`). -/
inductive TypeCode where
  | V | i | d | s | z | O | N
deriving DecidableEq, Repr

/-- Modelled from the spec: one parsed unit of the argument format string
(section 3, "Directive"). -/
structure Directive where
  code : TypeCode
  typeChecked : Bool := false
  presenceChecked : Bool := false
  optionalArg : Bool := false
  kwOnly : Bool := false
deriving DecidableEq, Repr

/-- Modelled from the spec: the error taxonomy of section 7 for the
Argument Matcher. -/
inductive MatchError where
  | compileError
  | missingArgument (name : String)
  | unexpectedKeyword (name : String)
  | duplicateArgument (name : String)
  | tooManyPositional
  | typeMismatch (name : String)
  | conversionError (name : String)
deriving DecidableEq, Repr

/-- Modelled from the spec: the Format Directive Compiler (section 4.1).
Walks the format string once, carrying the required/optional flag (set by
`|`) and the keyword-only flag (set by `$`); `!` and `?` modify the
directive just produced; `*` must be last and marks variadic capture.
Returns the directive list and the variadic flag, or a compile error. -/
def compileChars : List Char → Bool → Bool → List Directive → Option (List Directive × Bool)
  | [], _, _, acc => Option.some (acc.reverse, false)
  | c :: rest, opt, kw, acc =>
    match c with
    | 'V' => compileChars rest opt kw ({ code := .V, optionalArg := opt, kwOnly := kw } :: acc)
    | 'i' => compileChars rest opt kw ({ code := .i, optionalArg := opt, kwOnly := kw } :: acc)
    | 'd' => compileChars rest opt kw ({ code := .d, optionalArg := opt, kwOnly := kw } :: acc)
    | 's' => compileChars rest opt kw ({ code := .s, optionalArg := opt, kwOnly := kw } :: acc)
    | 'z' => compileChars rest opt kw ({ code := .z, optionalArg := opt, kwOnly := kw } :: acc)
    | 'O' => compileChars rest opt kw ({ code := .O, optionalArg := opt, kwOnly := kw } :: acc)
    | 'N' => compileChars rest opt kw ({ code := .N, optionalArg := opt, kwOnly := kw } :: acc)
    | '!' =>
      match acc with
      | d :: ds =>
        if d.code == .O && !d.typeChecked then
          compileChars rest opt kw ({ d with typeChecked := true } :: ds)
        else Option.none
      | [] => Option.none
    | '?' =>
      match acc with
      | d :: ds =>
        if !d.presenceChecked then
          compileChars rest opt kw ({ d with presenceChecked := true } :: ds)
        else Option.none
      | [] => Option.none
    | '|' => if opt then Option.none else compileChars rest true kw acc
    | '$' => if kw then Option.none else compileChars rest opt true acc
    | '*' => if rest.isEmpty then Option.some (acc.reverse, true) else Option.none
    | _ => Option.none

/-- Modelled from the spec: compile a whole format string into (directive
list, has-variadic-capture). -/
def compileFormat (fmt : String) : Option (List Directive × Bool) :=
  compileChars fmt.toList false false []

/-- Modelled from the spec: look a name up in the keyword mapping. -/
def kwLookup : String → List (String × KrkValue) → Option KrkValue
  | _, [] => Option.none
  | n, (k, v) :: rest => if k == n then Option.some v else kwLookup n rest

/-- Modelled from the spec: remove a consumed entry from the working copy of
the keyword mapping ("entries are removed as consumed"). -/
def kwRemove : String → List (String × KrkValue) → List (String × KrkValue)
  | _, [] => []
  | n, (k, v) :: rest => if k == n then rest else (k, v) :: kwRemove n rest

/-- Modelled from the spec: step 5 of the matching algorithm, the type
coercion/validation of one directive applied to the value found.  Numeric
codes require a numeric value (ConversionError otherwise); `s` requires a
string, `z` a string or none; `O` requires a heap object or none, and with
`!` additionally an instance of the supplied class descriptor. -/
def coerceValue (d : Directive) (cls : Option String) (name : String) (v : KrkValue) :
    Except MatchError KrkValue :=
  match d.code with
  | .V => .ok v
  | .N => .ok v
  | .i =>
    match v with
    | .int n => .ok (.int n)
    | _ => .error (.conversionError name)
  | .d =>
    match v with
    | .dbl q => .ok (.dbl q)
    | .int n => .ok (.dbl (n : Rat))
    | _ => .error (.conversionError name)
  | .s =>
    match v with
    | .str s => .ok (.str s)
    | _ => .error (.typeMismatch name)
  | .z =>
    match v with
    | .str s => .ok (.str s)
    | .none => .ok .none
    | _ => .error (.typeMismatch name)
  | .O =>
    match v with
    | .none => .ok .none
    | _ =>
      if isHeapObject v then
        if d.typeChecked then
          match cls with
          | Option.none => .error .compileError
          | Option.some c => if typeName v == c then .ok v else .error (.typeMismatch name)
        else .ok v
      else .error (.typeMismatch name)

/-- Modelled from the spec: steps 2-5 of the matching algorithm for a single
directive.  Returns (bound value if any, whether it was consumed from the
positional sequence, new positional cursor, new keyword mapping).  A
non-keyword-only directive with a pending positional value whose name also
appears in the keyword mapping is a duplicate-argument error (tie-break
policy, section 4.2); a keyword-only directive never consults the
positional cursor. -/
def bindOne (d : Directive) (name : String) (cls : Option String)
    (positional : List KrkValue) (cursor : Nat) (kw : List (String × KrkValue)) :
    Except MatchError (Option KrkValue × Bool × Nat × List (String × KrkValue)) :=
  if d.kwOnly then
    match kwLookup name kw with
    | Option.some v =>
      (coerceValue d cls name v).map (fun w => (Option.some w, false, cursor, kwRemove name kw))
    | Option.none =>
      if d.optionalArg then .ok (Option.none, false, cursor, kw)
      else .error (.missingArgument name)
  else
    match positional[cursor]? with
    | Option.some pv =>
      match kwLookup name kw with
      | Option.some _ => .error (.duplicateArgument name)
      | Option.none =>
        (coerceValue d cls name pv).map (fun w => (Option.some w, true, cursor + 1, kw))
    | Option.none =>
      match kwLookup name kw with
      | Option.some v =>
        (coerceValue d cls name v).map (fun w => (Option.some w, false, cursor, kwRemove name kw))
      | Option.none =>
        if d.optionalArg then .ok (Option.none, false, cursor, kw)
        else .error (.missingArgument name)

/-- Modelled from the spec: the per-directive outputs and the bookkeeping
state after walking the directive list.  `bindings` has one entry per
directive: `Option.none` means the output slot was left untouched.
`fromPos` records, per directive, whether it consumed a positional value. -/
structure LoopOut where
  bindings : List (Option KrkValue)
  presences : List (Option Bool)
  fromPos : List Bool
  cursor : Nat
  kwLeft : List (String × KrkValue)
  classesLeft : List String
deriving DecidableEq, Repr

/-- Modelled from the spec: step 1 of the matching algorithm, walking the
directives in order with a positional cursor and a working copy of the
keyword mapping.  Class descriptors for `!` directives are consumed in
order from the extra input stream `classes`. -/
def matchLoop (positional : List KrkValue) :
    List (Directive × String) → List String → Nat → List (String × KrkValue) →
    Except MatchError LoopOut
  | [], classes, cursor, kw => .ok ⟨[], [], [], cursor, kw, classes⟩
  | (d, name) :: rest, classes, cursor, kw =>
    match bindOne d name (if d.typeChecked then classes.head? else Option.none)
        positional cursor kw with
    | .error e => .error e
    | .ok (bv, fp, cursor', kw') =>
      match matchLoop positional rest
          (if d.typeChecked then classes.tail else classes) cursor' kw' with
      | .error e => .error e
      | .ok out =>
        .ok ⟨bv :: out.bindings,
             (if d.presenceChecked then Option.some bv.isSome else Option.none) :: out.presences,
             fp :: out.fromPos, out.cursor, out.kwLeft, out.classesLeft⟩

/-- Modelled from the spec: the observable result of a successful match:
per-directive bindings and presence flags, and the variadic capture pair
(count, view) when a `*` directive is present. -/
structure MatchOutput where
  bindings : List (Option KrkValue)
  presences : List (Option Bool)
  fromPos : List Bool
  varCount : Option Nat
  varView : Option (List KrkValue)
deriving DecidableEq, Repr

/-- Modelled from the spec: the Argument Matcher on a compiled signature
(directive list, variadic flag).  Checks the name-table length (compile
error on mismatch), runs the directive walk, then applies steps 6 and 7:
variadic capture binds (remaining count, view at the cursor), otherwise
remaining positional values are a too-many-positional error; leftover
keyword entries are an unexpected-keyword error. -/
def krk_parseArgsSig (sig : List Directive × Bool) (names : List String)
    (classes : List String) (positional : List KrkValue)
    (kw : List (String × KrkValue)) : Except MatchError MatchOutput :=
  if names.length == sig.1.length then
    match matchLoop positional (sig.1.zip names) classes 0 kw with
    | .error e => .error e
    | .ok out =>
      if sig.2 then
        match out.kwLeft with
        | [] => .ok ⟨out.bindings, out.presences, out.fromPos,
                     Option.some (positional.length - out.cursor),
                     Option.some (positional.drop out.cursor)⟩
        | (k, _) :: _ => .error (.unexpectedKeyword k)
      else if out.cursor < positional.length then .error .tooManyPositional
      else
        match out.kwLeft with
        | [] => .ok ⟨out.bindings, out.presences, out.fromPos, Option.none, Option.none⟩
        | (k, _) :: _ => .error (.unexpectedKeyword k)
  else .error .compileError

/-- Modelled from the spec: the Argument Matcher entry point, compiling the
format string and then matching (sections 4.1 and 4.2). -/
def krk_parseArgs (fmt : String) (names : List String) (classes : List String)
    (positional : List KrkValue) (kw : List (String × KrkValue)) :
    Except MatchError MatchOutput :=
  match compileFormat fmt with
  | Option.none => .error .compileError
  | Option.some sig => krk_parseArgsSig sig names classes positional kw

/-- Modelled from the spec: output slots are caller-owned; a directive whose
binding is absent leaves the slot at whatever the caller had stored there
("left unmodified"). -/
def finalSlots (inits : List KrkValue) (bindings : List (Option KrkValue)) : List KrkValue :=
  List.zipWith (fun b i => b.getD i) bindings inits

/-- Modelled from the spec: the Text Builder state, an owned growable byte
region with a logical length (`bytes.length`) and a capacity (section 3,
"Text Builder buffer").  `bytes` is the appended content; physical bytes
between the logical length and the capacity are uninitialized. -/
structure StringBuilder where
  bytes : List Char
  capacity : Nat
deriving DecidableEq, Repr

/-- Modelled from the spec: the growth policy of section 4.3 - when an
append would exceed capacity, capacity is increased to the larger of double
the old capacity and the minimum size needed. -/
def sbGrow (sb : StringBuilder) (needed : Nat) : Nat :=
  if needed ≤ sb.capacity then sb.capacity else max (sb.capacity * 2) needed

/-- Modelled from the spec: append a chunk of bytes, growing the capacity
first when the preexisting capacity is insufficient. -/
def pushStringBuilderStr (sb : StringBuilder) (s : List Char) : StringBuilder :=
  { bytes := sb.bytes ++ s, capacity := sbGrow sb (sb.bytes.length + s.length) }

/-- Modelled from the spec: one value of the Text Builder's value list
(section 4.3): integer, unsigned/size, string, char and pointer arguments
for the printf-style codes, and a runtime value for `%T` / `%R`. -/
inductive FmtArg where
  | intArg (n : Int)
  | natArg (n : Nat)
  | strArg (s : String)
  | charArg (c : Char)
  | ptrArg (p : Nat)
  | valArg (v : KrkValue)
deriving DecidableEq, Repr

/-- Modelled from the spec: the optional printf length modifiers `l`, `L`,
`z` accepted before a directive code. -/
def isSizeMod (c : Char) : Bool :=
  c == 'l' || c == 'L' || c == 'z'

/-- Modelled from the spec: render one `%` directive code against the next
value of the value list; `Option.none` is a format error (unknown directive
code, or value of the wrong kind for the code). -/
def fmtDirective (sb : StringBuilder) (code : Char) (args : List FmtArg) :
    Option (StringBuilder × List FmtArg) :=
  match code, args with
  | 'T', .valArg v :: rest => Option.some (pushStringBuilderStr sb (typeName v).toList, rest)
  | 'R', .valArg v :: rest => Option.some (pushStringBuilderStr sb (reprValue v).toList, rest)
  | 'd', .intArg n :: rest => Option.some (pushStringBuilderStr sb (toString n).toList, rest)
  | 'u', .natArg n :: rest => Option.some (pushStringBuilderStr sb (toString n).toList, rest)
  | 's', .strArg s :: rest => Option.some (pushStringBuilderStr sb s.toList, rest)
  | 'c', .charArg ch :: rest => Option.some (pushStringBuilderStr sb [ch], rest)
  | 'p', .ptrArg p :: rest => Option.some (pushStringBuilderStr sb (toString p).toList, rest)
  | _, _ => Option.none

/-- Modelled from the spec: the Append-formatted operation of section 4.3.
Literal bytes are copied verbatim; `%`, an optional length modifier and a
code consume the next value(s); a malformed template returns failure and
leaves the buffer in a valid but possibly-partially-appended state. -/
def runFormat : StringBuilder → List Char → List FmtArg → Bool × StringBuilder
  | sb, [], _ => (true, sb)
  | sb, ch :: rest, args =>
    if ch == '%' then
      match rest with
      | [] => (false, sb)
      | c1 :: rest1 =>
        if isSizeMod c1 then
          match rest1 with
          | [] => (false, sb)
          | c2 :: rest2 =>
            match fmtDirective sb c2 args with
            | Option.some (sb2, args2) => runFormat sb2 rest2 args2
            | Option.none => (false, sb)
        else
          match fmtDirective sb c1 args with
          | Option.some (sb1, args1) => runFormat sb1 rest1 args1
          | Option.none => (false, sb)
    else runFormat (pushStringBuilderStr sb [ch]) rest args

/-- Modelled from the spec: the Text Builder's formatted-append entry point;
returns a success flag and the new buffer state. -/
def krk_pushStringBuilderFormat (sb : StringBuilder) (tmpl : String) (args : List FmtArg) :
    Bool × StringBuilder :=
  runFormat sb tmpl.toList args

/-- Modelled from the spec: the Release operation of section 4.3 - frees the
buffer; afterwards the builder holds no bytes and no capacity. -/
def krk_discardStringBuilder (_ : StringBuilder) : StringBuilder :=
  { bytes := [], capacity := 0 }

/-- Modelled from the spec: a just-constructed builder (`struct
StringBuilder sb = {0}` in the demo): empty content, zero capacity. -/
def sbInit : StringBuilder := { bytes := [], capacity := 0 }

/-- The physical byte region backing a builder: the appended content
followed by `capacity - length` uninitialized bytes (modelled as NUL). -/
def regionBytes (sb : StringBuilder) : List Char :=
  sb.bytes ++ List.replicate (sb.capacity - sb.bytes.length) (Char.ofNat 0)

/-- The builder phase of `yet_more_args` (src/demo.c lines 160-193),
embedded from the source: the four `krk_pushStringBuilderFormat` calls in
order, each followed by an early `return NONE_VAL()` on failure that skips
the rest of the function.  Returns (all pushes succeeded, builder state at
exit). -/
def yetMoreArgsBuild (a : KrkValue) (b : Int) (cPresent : Bool) (c : Nat)
    (remainingCount : Int) : Bool × StringBuilder :=
  let r1 := krk_pushStringBuilderFormat sbInit
    "Received a %T that looks like %R, " [.valArg a, .valArg a]
  if !r1.1 then (false, r1.2) else
  let r2 := krk_pushStringBuilderFormat r1.2 "the value %d, " [.intArg b]
  if !r2.1 then (false, r2.2) else
  let r3 := if cPresent then
      krk_pushStringBuilderFormat r2.2 "c was %zu, " [.natArg c]
    else
      krk_pushStringBuilderFormat r2.2 "c was not provided, " []
  if !r3.1 then (false, r3.2) else
  let r4 := krk_pushStringBuilderFormat r3.2
    "and there were %d additional arguments.\n" [.intArg remainingCount]
  if !r4.1 then (false, r4.2) else (true, r4.2)

/-- The output phase of `yet_more_args` (src/demo.c line 196): when all four
pushes succeed, `fwrite(sb.bytes, sb.capacity, 1, stderr)` emits
`sb.capacity` bytes of the builder's physical region to stderr; on an early
return nothing is emitted. -/
def yetMoreArgsEmitted (a : KrkValue) (b : Int) (cPresent : Bool) (c : Nat)
    (remainingCount : Int) : Option (List Char) :=
  match yetMoreArgsBuild a b cPresent c remainingCount with
  | (true, sb) => Option.some ((regionBytes sb).take sb.capacity)
  | (false, _) => Option.none

/-- Whether `yet_more_args` (src/demo.c lines 160-202) reaches its
`krk_discardStringBuilder` call, as a function of the success of the four
`krk_pushStringBuilderFormat` calls: each failure takes an early
`return NONE_VAL()` (lines 169, 180, 184/186, 192) that skips the discard
at line 200. -/
def yetMoreArgsDiscards (ok1 ok2 ok3 ok4 : Bool) : Bool :=
  if !ok1 then false
  else if !ok2 then false
  else if !ok3 then false
  else if !ok4 then false
  else true

/-- Modelled from the spec: a sequence of Append-formatted operations on a
Text Builder, recording the buffer state after each operation (used to
state the buffer invariants over a builder's whole lifetime). -/
def runOps : StringBuilder → List (String × List FmtArg) → List StringBuilder
  | _, [] => []
  | sb, (t, as) :: rest =>
    (krk_pushStringBuilderFormat sb t as).2 ::
      runOps (krk_pushStringBuilderFormat sb t as).2 rest

/-- The trace of buffer states of a Text Builder from its construction
through a sequence of Append-formatted operations, before release. -/
def sbTrace (ops : List (String × List FmtArg)) : List StringBuilder :=
  sbInit :: runOps sbInit ops

/-! ### Helper lemmas about the Argument Matcher -/

/-- Looking up a different name is unaffected by removing a consumed
entry. -/
theorem kwLookup_kwRemove_ne (n m : String) (kw : List (String × KrkValue))
    (h : n ≠ m) : kwLookup n (kwRemove m kw) = kwLookup n kw := by
  induction kw with
  | nil => rfl
  | cons p rest ih =>
    obtain ⟨k, v⟩ := p
    by_cases hk : k = m
    · subst hk
      have hne : (k == n) = false := by
        simp only [beq_eq_false_iff_ne, ne_eq]
        intro hkn; exact h (hkn ▸ rfl)
      simp [kwRemove, kwLookup, hne]
    · have hne : (k == m) = false := by simp [hk]
      simp only [kwRemove, hne, Bool.false_eq_true, if_false, kwLookup]
      by_cases hkn : k = n
      · simp [hkn]
      · have : (k == n) = false := by simp [hkn]
        simp [this, ih]

/-- Characterization of a successful single-directive binding: a positional
consumption advances the cursor by one and requires both a pending
positional value and the absence of the name from the keyword mapping; a
keyword-only directive never consumes positionally; the keyword mapping
either stays or loses exactly the consumed entry. -/
theorem bindOne_ok (d : Directive) (name : String) (cls : Option String)
    (positional : List KrkValue) (cursor : Nat) (kw : List (String × KrkValue))
    (bv : Option KrkValue) (fp : Bool) (cursor' : Nat) (kw' : List (String × KrkValue))
    (h : bindOne d name cls positional cursor kw = .ok (bv, fp, cursor', kw')) :
    (fp = true → cursor' = cursor + 1 ∧ cursor < positional.length ∧
      kwLookup name kw = Option.none) ∧
    (fp = false → cursor' = cursor) ∧
    (d.kwOnly = true → fp = false) ∧
    (kw' = kw ∨ kw' = kwRemove name kw) := by
  unfold bindOne at h
  by_cases hko : d.kwOnly
  · simp only [hko, if_true] at h
    cases hkw : kwLookup name kw with
    | none =>
      simp only [hkw] at h
      by_cases hopt : d.optionalArg
      · simp only [hopt, if_true, Except.ok.injEq, Prod.mk.injEq] at h
        obtain ⟨h1, h2, h3, h4⟩ := h
        subst h1; subst h2; subst h3; subst h4
        exact ⟨fun hc => Bool.noConfusion hc, fun _ => rfl, fun _ => rfl, Or.inl rfl⟩
      · simp [hopt] at h
    | some v =>
      simp only [hkw] at h
      cases hc : coerceValue d cls name v with
      | error e => simp [hc, Except.map] at h
      | ok w =>
        simp only [hc, Except.map, Except.ok.injEq, Prod.mk.injEq] at h
        obtain ⟨h1, h2, h3, h4⟩ := h
        subst h1; subst h2; subst h3; subst h4
        exact ⟨fun hc => Bool.noConfusion hc, fun _ => rfl, fun _ => rfl, Or.inr rfl⟩
  · simp only [hko, Bool.false_eq_true, if_false] at h
    cases hp : positional[cursor]? with
    | some pv =>
      simp only [hp] at h
      cases hkw : kwLookup name kw with
      | some v => simp [hkw] at h
      | none =>
        simp only [hkw] at h
        cases hc : coerceValue d cls name pv with
        | error e => simp [hc, Except.map] at h
        | ok w =>
          simp only [hc, Except.map, Except.ok.injEq, Prod.mk.injEq] at h
          obtain ⟨h1, h2, h3, h4⟩ := h
          subst h1; subst h2; subst h3; subst h4
          refine ⟨fun _ => ⟨rfl, ?_, ?_⟩, fun hc => Bool.noConfusion hc, ?_, Or.inl rfl⟩
          · exact List.getElem?_eq_some.mp hp |>.1
          · rfl
          · intro hko'; exact absurd hko' hko
    | none =>
      simp only [hp] at h
      cases hkw : kwLookup name kw with
      | none =>
        simp only [hkw] at h
        by_cases hopt : d.optionalArg
        · simp only [hopt, if_true, Except.ok.injEq, Prod.mk.injEq] at h
          obtain ⟨h1, h2, h3, h4⟩ := h
          subst h1; subst h2; subst h3; subst h4
          exact ⟨fun hc => Bool.noConfusion hc, fun _ => rfl, fun _ => rfl, Or.inl rfl⟩
        · simp [hopt] at h
      | some v =>
        simp only [hkw] at h
        cases hc : coerceValue d cls name v with
        | error e => simp [hc, Except.map] at h
        | ok w =>
          simp only [hc, Except.map, Except.ok.injEq, Prod.mk.injEq] at h
          obtain ⟨h1, h2, h3, h4⟩ := h
          subst h1; subst h2; subst h3; subst h4
          exact ⟨fun hc => Bool.noConfusion hc, fun _ => rfl, fun _ => rfl, Or.inr rfl⟩

/-- A successful directive walk produces one binding, one presence flag and
one consumed-from-positional flag per directive, and its final cursor is the
start cursor plus the number of directives that consumed a positional
value; the cursor never passes the end of the positional sequence. -/
theorem matchLoop_ok (positional : List KrkValue) :
    ∀ (ds : List (Directive × String)) (classes : List String) (cursor : Nat)
      (kw : List (String × KrkValue)) (out : LoopOut),
    matchLoop positional ds classes cursor kw = .ok out →
    out.cursor = cursor + out.fromPos.count true ∧
    (cursor ≤ positional.length → out.cursor ≤ positional.length) ∧
    out.bindings.length = ds.length ∧
    out.presences.length = ds.length ∧
    out.fromPos.length = ds.length := by
  intro ds
  induction ds with
  | nil =>
    intro classes cursor kw out h
    simp only [matchLoop, Except.ok.injEq] at h
    subst h
    simp [List.count]
  | cons p rest ih =>
    intro classes cursor kw out h
    obtain ⟨d, name⟩ := p
    simp only [matchLoop] at h
    cases hb : bindOne d name (if d.typeChecked then classes.head? else Option.none)
        positional cursor kw with
    | error e => simp [hb] at h
    | ok r =>
      obtain ⟨bv, fp, cursor', kw'⟩ := r
      simp only [hb] at h
      cases hl : matchLoop positional rest
          (if d.typeChecked then classes.tail else classes) cursor' kw' with
      | error e => simp [hl] at h
      | ok o =>
        simp only [hl, Except.ok.injEq] at h
        subst h
        obtain ⟨hc1, hc2, hl1, hl2, hl3⟩ := ih _ cursor' kw' o hl
        obtain ⟨hpos, hnot, _, _⟩ := bindOne_ok d name _ positional cursor kw bv fp cursor' kw' hb
        cases fp with
        | false =>
          have hcc : cursor' = cursor := hnot rfl
          subst hcc
          refine ⟨?_, fun hle => hc2 hle, by simp [hl1], by simp [hl2], by simp [hl3]⟩
          simp [List.count_cons, hc1]
        | true =>
          obtain ⟨hcc, hlt, _⟩ := hpos rfl
          subst hcc
          refine ⟨?_, fun _ => hc2 hlt, by simp [hl1], by simp [hl2], by simp [hl3]⟩
          simp [List.count_cons, hc1]
          omega

/-- The directive walk over an appended directive list runs the first part,
then the second part from the state the first part left behind, and
concatenates the per-directive outputs. -/
theorem matchLoop_append_ok (positional : List KrkValue) (l₁ l₂ : List (Directive × String)) :
    ∀ (classes : List String) (cursor : Nat) (kw : List (String × KrkValue))
      (o1 o2 : LoopOut),
    matchLoop positional l₁ classes cursor kw = .ok o1 →
    matchLoop positional l₂ o1.classesLeft o1.cursor o1.kwLeft = .ok o2 →
    matchLoop positional (l₁ ++ l₂) classes cursor kw =
      .ok ⟨o1.bindings ++ o2.bindings, o1.presences ++ o2.presences,
           o1.fromPos ++ o2.fromPos, o2.cursor, o2.kwLeft, o2.classesLeft⟩ := by
  induction l₁ with
  | nil =>
    intro classes cursor kw o1 o2 h1 h2
    simp only [matchLoop, Except.ok.injEq] at h1
    subst h1
    simpa using h2
  | cons p rest ih =>
    intro classes cursor kw o1 o2 h1 h2
    obtain ⟨d, name⟩ := p
    simp only [matchLoop] at h1
    cases hb : bindOne d name (if d.typeChecked then classes.head? else Option.none)
        positional cursor kw with
    | error e => simp [hb] at h1
    | ok r =>
      obtain ⟨bv, fp, cursor', kw'⟩ := r
      simp only [hb] at h1
      cases hl : matchLoop positional rest
          (if d.typeChecked then classes.tail else classes) cursor' kw' with
      | error e => simp [hl] at h1
      | ok o =>
        simp only [hl, Except.ok.injEq] at h1
        subst h1
        have h2' : matchLoop positional l₂ o.classesLeft o.cursor o.kwLeft = .ok o2 := h2
        have := ih _ cursor' kw' o o2 hl h2'
        simp only [List.cons_append, matchLoop, hb, List.append_eq, this]

/-- In a successful directive walk whose names are pairwise distinct, a
directive that consumed a positional value has a name absent from the
keyword mapping the walk started from. -/
theorem matchLoop_noDup (positional : List KrkValue) :
    ∀ (ds : List (Directive × String)) (classes : List String) (cursor : Nat)
      (kw : List (String × KrkValue)) (out : LoopOut),
    matchLoop positional ds classes cursor kw = .ok out →
    (ds.map Prod.snd).Nodup →
    ∀ (j : Nat) (d : Directive) (name : String),
      ds[j]? = Option.some (d, name) →
      out.fromPos[j]? = Option.some true →
      kwLookup name kw = Option.none := by
  intro ds
  induction ds with
  | nil =>
    intro classes cursor kw out _ _ j d name hj _
    simp at hj
  | cons p rest ih =>
    intro classes cursor kw out h hnd j d name hj hfp
    obtain ⟨d0, name0⟩ := p
    simp only [matchLoop] at h
    cases hb : bindOne d0 name0 (if d0.typeChecked then classes.head? else Option.none)
        positional cursor kw with
    | error e => simp [hb] at h
    | ok r =>
      obtain ⟨bv, fp, cursor', kw'⟩ := r
      simp only [hb] at h
      cases hl : matchLoop positional rest
          (if d0.typeChecked then classes.tail else classes) cursor' kw' with
      | error e => simp [hl] at h
      | ok o =>
        simp only [hl, Except.ok.injEq] at h
        subst h
        obtain ⟨hpos, _, _, hkw'⟩ :=
          bindOne_ok d0 name0 _ positional cursor kw bv fp cursor' kw' hb
        cases j with
        | zero =>
          simp only [List.getElem?_cons_zero, Option.some.injEq] at hj hfp
          obtain ⟨hd, hn⟩ := Prod.mk.injEq .. ▸ hj
          subst hn
          exact (hpos hfp).2.2
        | succ j' =>
          simp only [List.getElem?_cons_succ] at hj hfp
          simp only [List.map_cons, List.nodup_cons] at hnd
          obtain ⟨hn0, hndr⟩ := hnd
          have hmem : name ∈ rest.map Prod.snd := by
            have : (d, name) ∈ rest := List.getElem?_mem hj
            exact List.mem_map.mpr ⟨(d, name), this, rfl⟩
          have hne : name ≠ name0 := fun he => hn0 (he ▸ hmem)
          have hrec := ih _ cursor' kw' o hl hndr j' d name hj hfp
          rcases hkw' with hkk | hkk
          · exact hkk ▸ hrec
          · rw [hkk, kwLookup_kwRemove_ne name name0 kw hne] at hrec
            exact hrec

/-- In a successful directive walk, a keyword-only directive is never
marked as having consumed a positional value. -/
theorem matchLoop_kwOnly (positional : List KrkValue) :
    ∀ (ds : List (Directive × String)) (classes : List String) (cursor : Nat)
      (kw : List (String × KrkValue)) (out : LoopOut),
    matchLoop positional ds classes cursor kw = .ok out →
    ∀ (j : Nat) (d : Directive) (name : String),
      ds[j]? = Option.some (d, name) →
      d.kwOnly = true →
      out.fromPos[j]? = Option.some false := by
  intro ds
  induction ds with
  | nil =>
    intro classes cursor kw out _ j d name hj _
    simp at hj
  | cons p rest ih =>
    intro classes cursor kw out h j d name hj hdk
    obtain ⟨d0, name0⟩ := p
    simp only [matchLoop] at h
    cases hb : bindOne d0 name0 (if d0.typeChecked then classes.head? else Option.none)
        positional cursor kw with
    | error e => simp [hb] at h
    | ok r =>
      obtain ⟨bv, fp, cursor', kw'⟩ := r
      simp only [hb] at h
      cases hl : matchLoop positional rest
          (if d0.typeChecked then classes.tail else classes) cursor' kw' with
      | error e => simp [hl] at h
      | ok o =>
        simp only [hl, Except.ok.injEq] at h
        subst h
        obtain ⟨_, _, hko, _⟩ :=
          bindOne_ok d0 name0 _ positional cursor kw bv fp cursor' kw' hb
        cases j with
        | zero =>
          simp only [List.getElem?_cons_zero, Option.some.injEq] at hj
          obtain ⟨hd, hn⟩ := Prod.mk.injEq .. ▸ hj
          subst hd
          simp [hko hdk]
        | succ j' =>
          simp only [List.getElem?_cons_succ] at hj ⊢
          exact ih _ cursor' kw' o hl j' d name hj hdk


/-! ### Claim theorems -/

/-- C1: for every call of the Argument Matcher whose directive list ends in
a variadic-capture directive (`*`, as in the format "Vi|N?*" used by
yet_more_args), the bound count equals the length of the positional
sequence minus the number of directives before it that consumed a
positional value, and the bound view is the contiguous, order-preserving
slice of the original positional sequence starting at the positional
cursor. -/
theorem claim_C1 (fmt : String) (names classes : List String)
    (positional : List KrkValue) (kw : List (String × KrkValue))
    (sig : List Directive × Bool) (out : MatchOutput)
    (hc : compileFormat fmt = Option.some sig) (hv : sig.2 = true)
    (h : krk_parseArgs fmt names classes positional kw = .ok out) :
    out.varCount = Option.some (positional.length - out.fromPos.count true) ∧
    out.varView = Option.some (positional.drop (out.fromPos.count true)) ∧
    out.fromPos.count true ≤ positional.length ∧
    positional.take (out.fromPos.count true) ++ positional.drop (out.fromPos.count true)
      = positional := by
  unfold krk_parseArgs at h
  rw [hc] at h
  unfold krk_parseArgsSig at h
  cases hbe : (names.length == sig.1.length) with
  | false => simp [hbe] at h
  | true =>
    simp only [hbe, if_true] at h
    cases hm : matchLoop positional (sig.1.zip names) classes 0 kw with
    | error e => simp [hm] at h
    | ok o =>
      simp only [hm, hv, if_true] at h
      cases hkl : o.kwLeft with
      | cons p rest =>
        obtain ⟨k, v⟩ := p
        simp [hkl] at h
      | nil =>
        simp only [hkl, Except.ok.injEq] at h
        subst h
        obtain ⟨hcur, hle, _, _, _⟩ := matchLoop_ok positional _ classes 0 kw o hm
        simp only [Nat.zero_add] at hcur
        refine ⟨by rw [hcur], by rw [hcur], ?_, List.take_append_drop _ _⟩
        rw [← hcur]
        exact hle (Nat.zero_le _)

/-- C1 witness: the second demo call of yet_more_args,
`utils.yet_more_args({1,2,3},420,69,'a','b','c')`: three directives consume
a positional value each, so the capture binds count 3 and the view
['a','b','c']. -/
theorem claim_C1_witness :
    ∃ out : MatchOutput,
      krk_parseArgs "Vi|N?*" ["a", "b", "c"] []
        [.obj "set" 0, .int 420, .int 69, .str "a", .str "b", .str "c"] [] = .ok out ∧
      out.varCount = Option.some (6 - out.fromPos.count true) ∧
      out.varView = Option.some
        (([KrkValue.obj "set" 0, .int 420, .int 69, .str "a", .str "b", .str "c"]).drop
          (out.fromPos.count true)) := by
  refine ⟨⟨[Option.some (.obj "set" 0), Option.some (.int 420), Option.some (.int 69)],
           [Option.none, Option.none, Option.some true], [true, true, true],
           Option.some 3, Option.some [.str "a", .str "b", .str "c"]⟩, rfl, ?_, ?_⟩
  · exact (claim_C1 "Vi|N?*" ["a", "b", "c"] []
      [.obj "set" 0, .int 420, .int 69, .str "a", .str "b", .str "c"] [] _ _
      rfl rfl rfl).1
  · exact (claim_C1 "Vi|N?*" ["a", "b", "c"] []
      [.obj "set" 0, .int 420, .int 69, .str "a", .str "b", .str "c"] [] _ _
      rfl rfl rfl).2.1

/-- C3: a heap-object directive (`O`, with or without `!`) applied to a
value that is neither a heap-allocated object nor none raises a type error,
both at the coercion step and through the whole Matcher. -/
theorem claim_C3 (tc pres opt kwo : Bool) (name : String) (cls : Option String)
    (v : KrkValue) (hheap : isHeapObject v = false) (hnone : v ≠ KrkValue.none) :
    coerceValue ⟨.O, tc, pres, opt, kwo⟩ cls name v = .error (.typeMismatch name) ∧
    krk_parseArgs "O" ["a"] [] [v] [] = .error (.typeMismatch "a") := by
  cases v with
  | none => exact absurd rfl hnone
  | bool b => exact ⟨rfl, rfl⟩
  | int n => exact ⟨rfl, rfl⟩
  | dbl q => exact ⟨rfl, rfl⟩
  | str s => simp [isHeapObject] at hheap
  | obj c i => simp [isHeapObject] at hheap

/-- C3 witness: the primitive value 5 is rejected by a heap-object
directive with a type error. -/
theorem claim_C3_witness :
    coerceValue ⟨.O, false, false, false, false⟩ Option.none "a" (.int 5)
      = .error (.typeMismatch "a") ∧
    krk_parseArgs "O" ["a"] [] [.int 5] [] = .error (.typeMismatch "a") :=
  claim_C3 false false false false "a" Option.none (.int 5) rfl (fun hc => KrkValue.noConfusion hc)

/-- C6: the signature "Vi|s" with names a, b, c called with positional
(7, 3) and called with positional (7,) plus keyword b := 3 produce the same
observable result: success, a bound to 7 as-is, b to the integer 3, the c
output slot untouched (its binding is absent, so any caller-owned slot
contents survive). -/
theorem claim_C6 :
    krk_parseArgs "Vi|s" ["a", "b", "c"] [] [.int 7, .int 3] [] =
      .ok ⟨[Option.some (.int 7), Option.some (.int 3), Option.none],
           [Option.none, Option.none, Option.none], [true, true, false],
           Option.none, Option.none⟩ ∧
    krk_parseArgs "Vi|s" ["a", "b", "c"] [] [.int 7] [("b", .int 3)] =
      .ok ⟨[Option.some (.int 7), Option.some (.int 3), Option.none],
           [Option.none, Option.none, Option.none], [true, false, false],
           Option.none, Option.none⟩ ∧
    (∀ cInit : KrkValue,
      finalSlots [.int 7, .int 3, cInit]
        [Option.some (KrkValue.int 7), Option.some (KrkValue.int 3), Option.none] =
        [.int 7, .int 3, cInit]) := by
  refine ⟨rfl, rfl, fun cInit => rfl⟩


/-- Decomposition of a successful Argument Matcher run into its directive
walk: the name table matches the directive list in length, the walk
succeeded, the per-directive outputs are the walk's, the keyword mapping
was fully consumed, and without a variadic directive the positional
sequence was fully consumed. -/
theorem parseArgsSig_ok (sig : List Directive × Bool) (names classes : List String)
    (positional : List KrkValue) (kw : List (String × KrkValue)) (out : MatchOutput)
    (h : krk_parseArgsSig sig names classes positional kw = .ok out) :
    names.length = sig.1.length ∧
    ∃ o : LoopOut, matchLoop positional (sig.1.zip names) classes 0 kw = .ok o ∧
      out.bindings = o.bindings ∧ out.presences = o.presences ∧
      out.fromPos = o.fromPos ∧ o.kwLeft = [] ∧
      (sig.2 = false → positional.length ≤ o.cursor ∧
        out.varCount = Option.none ∧ out.varView = Option.none) ∧
      (sig.2 = true → out.varCount = Option.some (positional.length - o.cursor) ∧
        out.varView = Option.some (positional.drop o.cursor)) := by
  unfold krk_parseArgsSig at h
  cases hbe : (names.length == sig.1.length) with
  | false => simp [hbe] at h
  | true =>
    simp only [hbe, if_true] at h
    refine ⟨beq_iff_eq.mp hbe, ?_⟩
    cases hm : matchLoop positional (sig.1.zip names) classes 0 kw with
    | error e => simp [hm] at h
    | ok o =>
      simp only [hm] at h
      refine ⟨o, rfl, ?_⟩
      cases hv : sig.2 with
      | true =>
        simp only [hv, if_true] at h
        cases hkl : o.kwLeft with
        | cons p rest => obtain ⟨k, v⟩ := p; simp [hkl] at h
        | nil =>
          simp only [hkl, Except.ok.injEq] at h
          subst h
          refine ⟨rfl, rfl, rfl, rfl, fun hf => ?_, fun _ => ⟨rfl, rfl⟩⟩
          simp [hv] at hf
      | false =>
        simp only [hv, Bool.false_eq_true, if_false] at h
        cases hlt : decide (o.cursor < positional.length) with
        | true => simp [Nat.lt_irrefl, of_decide_eq_true hlt] at h
        | false =>
          have hge : ¬ o.cursor < positional.length := of_decide_eq_false hlt
          simp only [hge, if_false] at h
          cases hkl : o.kwLeft with
          | cons p rest => obtain ⟨k, v⟩ := p; simp [hkl] at h
          | nil =>
            simp only [hkl, Except.ok.injEq] at h
            subst h
            refine ⟨rfl, rfl, rfl, rfl, fun _ => ⟨Nat.le_of_not_lt hge, rfl, rfl⟩, fun ht => ?_⟩
            simp [hv] at ht

/-- C2: a logical parameter that has both a pending positional value and a
keyword entry under its name is a duplicate-argument failure at its binding
step; consequently a successful run never binds a directive positionally
while its name is present in the keyword mapping - the Matcher never
silently prefers one of the two values. -/
theorem claim_C2 :
    (∀ (d : Directive) (name : String) (cls : Option String)
        (positional : List KrkValue) (cursor : Nat)
        (kw : List (String × KrkValue)) (pv v : KrkValue),
      d.kwOnly = false →
      positional[cursor]? = Option.some pv →
      kwLookup name kw = Option.some v →
      bindOne d name cls positional cursor kw = .error (.duplicateArgument name)) ∧
    (∀ (fmt : String) (names classes : List String) (positional : List KrkValue)
        (kw : List (String × KrkValue)) (out : MatchOutput) (j : Nat) (name : String),
      names.Nodup →
      krk_parseArgs fmt names classes positional kw = .ok out →
      names[j]? = Option.some name →
      out.fromPos[j]? = Option.some true →
      kwLookup name kw = Option.none) := by
  constructor
  · intro d name cls positional cursor kw pv v hko hp hkw
    unfold bindOne
    simp [hko, hp, hkw]
  · intro fmt names classes positional kw out j name hnd h hname hfp
    unfold krk_parseArgs at h
    cases hcf : compileFormat fmt with
    | none => simp [hcf] at h
    | some sig =>
      simp only [hcf] at h
      obtain ⟨hlen, o, hm, _, _, hfp_eq, _, _, _⟩ :=
        parseArgsSig_ok sig names classes positional kw out h
      rw [hfp_eq] at hfp
      have hjlt : j < o.fromPos.length := (List.getElem?_eq_some.mp hfp).1
      obtain ⟨_, _, _, _, hlfp⟩ := matchLoop_ok positional _ classes 0 kw o hm
      have hjz : j < (sig.1.zip names).length := hlfp ▸ hjlt
      have hdz : (sig.1.zip names)[j]? = Option.some ((sig.1.zip names)[j]) :=
        List.getElem?_eq_getElem hjz
      obtain ⟨hd1, hd2⟩ := List.getElem?_zip_eq_some.mp hdz
      have hnm : (sig.1.zip names)[j].2 = name := by
        rw [hname] at hd2
        exact (Option.some.injEq _ _ ▸ hd2).symm
      have hnd' : ((sig.1.zip names).map Prod.snd).Nodup := by
        rw [List.map_snd_zip sig.1 names (Nat.le_of_eq hlen)]
        exact hnd
      have := matchLoop_noDup positional (sig.1.zip names) classes 0 kw o hm hnd' j
        ((sig.1.zip names)[j]).1 ((sig.1.zip names)[j]).2 (by rw [hdz]) hfp
      rw [hnm] at this
      exact this

/-- C2 witness: at the binding step, a pending positional value together
with a keyword entry of the same name fails as a duplicate argument; and a
successful run ("Vi|s" with positional (7,) and keyword b := 3) shows the
positionally-bound name a absent from the keyword mapping. -/
theorem claim_C2_witness :
    bindOne ⟨.V, false, false, false, false⟩ "b" Option.none [.int 1, .int 2] 1
        [("b", .int 3)] = .error (.duplicateArgument "b") ∧
    kwLookup "a" [("b", .int 3)] = Option.none := by
  constructor
  · exact claim_C2.1 ⟨.V, false, false, false, false⟩ "b" Option.none [.int 1, .int 2] 1
      [("b", .int 3)] (.int 2) (.int 3) rfl rfl rfl
  · exact claim_C2.2 "Vi|s" ["a", "b", "c"] [] [.int 7] [("b", .int 3)]
      ⟨[Option.some (.int 7), Option.some (.int 3), Option.none],
       [Option.none, Option.none, Option.none], [true, false, false],
       Option.none, Option.none⟩ 0 "a" (by decide) rfl rfl rfl

/-- C5: a keyword-only directive is never bound to a positional value: its
binding step leaves the positional cursor untouched and never reports a
positional consumption, and in any successful run every keyword-only
directive's consumed-from-positional flag is false, as for the directive d
after the `$` boundary in the format "O!|z$d" of more_args. -/
theorem claim_C5 :
    (∀ (d : Directive) (name : String) (cls : Option String)
        (positional : List KrkValue) (cursor : Nat) (kw : List (String × KrkValue))
        (r : Option KrkValue × Bool × Nat × List (String × KrkValue)),
      d.kwOnly = true →
      bindOne d name cls positional cursor kw = .ok r →
      r.2.1 = false ∧ r.2.2.1 = cursor) ∧
    (∀ (fmt : String) (names classes : List String) (positional : List KrkValue)
        (kw : List (String × KrkValue)) (sig : List Directive × Bool)
        (out : MatchOutput) (j : Nat) (d : Directive) (name : String),
      compileFormat fmt = Option.some sig →
      krk_parseArgs fmt names classes positional kw = .ok out →
      sig.1[j]? = Option.some d →
      names[j]? = Option.some name →
      d.kwOnly = true →
      out.fromPos[j]? = Option.some false) := by
  constructor
  · intro d name cls positional cursor kw r hko hb
    obtain ⟨bv, fp, cursor', kw'⟩ := r
    obtain ⟨_, hnot, hkwo, _⟩ := bindOne_ok d name cls positional cursor kw bv fp cursor' kw' hb
    have hfp : fp = false := hkwo hko
    exact ⟨hfp, hnot hfp⟩
  · intro fmt names classes positional kw sig out j d name hcf h hd hn hko
    unfold krk_parseArgs at h
    simp only [hcf] at h
    obtain ⟨hlen, o, hm, _, _, hfp_eq, _, _, _⟩ :=
      parseArgsSig_ok sig names classes positional kw out h
    rw [hfp_eq]
    exact matchLoop_kwOnly positional (sig.1.zip names) classes 0 kw o hm j d name
      (List.getElem?_zip_eq_some.mpr ⟨hd, hn⟩) hko

/-- C5 witness: a keyword-only directive binds from the keyword mapping
while an unconsumed positional value remains, leaving the cursor in place;
and in the demo call `more_args({'a': 7}, c=0.12345)` over "O!|z$d" the
keyword-only directive d has a false consumed-from-positional flag. -/
theorem claim_C5_witness :
    ((Option.some (KrkValue.dbl 5), false, 1,
        ([] : List (String × KrkValue))).2.1 = false ∧
     (Option.some (KrkValue.dbl 5), false, 1, ([] : List (String × KrkValue))).2.2.1 = 1) ∧
    ([true, false, false] : List Bool)[2]? = Option.some false := by
  constructor
  · exact claim_C5.1 ⟨.d, false, false, true, true⟩ "c" Option.none [.int 1, .int 2] 1
      [("c", .dbl 5)] (Option.some (.dbl 5), false, 1, []) rfl rfl
  · exact claim_C5.2 "O!|z$d" ["a", "b", "c"] ["dict"] [.obj "dict" 0] [("c", .dbl 5)]
      ([⟨.O, true, false, false, false⟩, ⟨.z, false, false, true, false⟩,
        ⟨.d, false, false, true, true⟩], false)
      ⟨[Option.some (.obj "dict" 0), Option.none, Option.some (.dbl 5)],
       [Option.none, Option.none, Option.none], [true, false, false],
       Option.none, Option.none⟩ 2 ⟨.d, false, false, true, true⟩ "c" rfl rfl rfl rfl rfl


/-- The single-directive walk of an omitted optional directive: with the
positional sequence exhausted and the keyword mapping empty, an optional
directive binds nothing, reports absence, and leaves all state alone. -/
theorem matchLoop_omitted (positional : List KrkValue) (dOpt : Directive)
    (nameOpt : String) (classes : List String) (cursor : Nat)
    (hopt : dOpt.optionalArg = true)
    (hcur : positional.length ≤ cursor) :
    matchLoop positional [(dOpt, nameOpt)] classes cursor [] =
      .ok ⟨[Option.none],
           [if dOpt.presenceChecked then Option.some false else Option.none],
           [false], cursor, [],
           if dOpt.typeChecked then classes.tail else classes⟩ := by
  have hnone : positional[cursor]? = Option.none := List.getElem?_eq_none hcur
  have hb : ∀ cls : Option String, bindOne dOpt nameOpt cls positional cursor [] =
      .ok (Option.none, false, cursor, []) := by
    intro cls
    unfold bindOne
    cases hko : dOpt.kwOnly with
    | true => simp [hko, kwLookup, hopt]
    | false => simp [hko, kwLookup, hopt, hnone]
  simp only [matchLoop, hb, Option.isSome_none]

/-- C4: a directive list with exactly one optional directive is, because
optional directives form a suffix after the `|` boundary, a list of
required directives followed by one optional directive (possibly followed
by a variadic-capture marker).  Appending that optional directive to the
required-only signature does not disturb a call that omits it (neither
positionally - no unconsumed positional value remains at its position,
which for a variadic signature is the hypothesis that the base capture
count is zero - nor by keyword): the Matcher still succeeds, the new
directive's binding is absent, its presence flag (when `?`-requested) is
false, the variadic capture is unchanged, and the corresponding
caller-owned output slot keeps exactly its pre-initialized contents. -/
theorem claim_C4 (req : List Directive) (names classes : List String)
    (positional : List KrkValue) (kw : List (String × KrkValue)) (hasVar : Bool)
    (dOpt : Directive) (nameOpt : String) (out : MatchOutput)
    (inits : List KrkValue) (cInit : KrkValue)
    (hall : ∀ d ∈ req, d.optionalArg = false)
    (hopt : dOpt.optionalArg = true)
    (homitP : hasVar = true → out.varCount = Option.some 0)
    (homitK : kwLookup nameOpt kw = Option.none)
    (hlen2 : inits.length = out.bindings.length)
    (h : krk_parseArgsSig (req, hasVar) names classes positional kw = .ok out) :
    krk_parseArgsSig (req ++ [dOpt], hasVar) (names ++ [nameOpt]) classes positional kw =
      .ok ⟨out.bindings ++ [Option.none],
           out.presences ++ [if dOpt.presenceChecked then Option.some false else Option.none],
           out.fromPos ++ [false], out.varCount, out.varView⟩ ∧
    finalSlots (inits ++ [cInit]) (out.bindings ++ [Option.none]) =
      finalSlots inits out.bindings ++ [cInit] := by
  obtain ⟨hlen, o, hm, hbnd, hprs, hfps, hkl, hrF, hrT⟩ :=
    parseArgsSig_ok (req, hasVar) names classes positional kw out h
  have hcur : positional.length ≤ o.cursor := by
    cases hv : hasVar with
    | false => exact (hrF hv).1
    | true =>
      have hvc := (hrT hv).1
      rw [homitP hv] at hvc
      have hz := Option.some.inj hvc
      omega
  constructor
  · have hone := matchLoop_omitted positional dOpt nameOpt o.classesLeft o.cursor hopt hcur
    have hall2 := matchLoop_append_ok positional (req.zip names) [(dOpt, nameOpt)]
      classes 0 kw o _ hm (by rw [hkl]; exact hone)
    unfold krk_parseArgsSig
    have hlena : ((names ++ [nameOpt]).length == ((req ++ [dOpt], hasVar).1).length) = true := by
      simp [hlen]
    rw [hlena]
    simp only [if_true]
    have hzip : ((req ++ [dOpt], hasVar).1).zip (names ++ [nameOpt]) =
        req.zip names ++ [(dOpt, nameOpt)] := List.zip_append hlen.symm
    rw [hzip, hall2]
    simp only [List.append_nil]
    cases hv : hasVar with
    | true =>
      obtain ⟨hvc, hvv⟩ := hrT hv
      simp only [if_true, hbnd, hprs, hfps, hvc, hvv]
    | false =>
      obtain ⟨_, hvc, hvv⟩ := hrF hv
      have hnlt : ¬ o.cursor < positional.length := Nat.not_lt.mpr hcur
      simp only [Bool.false_eq_true, if_false, hnlt, hbnd, hprs, hfps, hvc, hvv]
  · unfold finalSlots
    rw [List.zipWith_append _ _ _ _ _ (hlen2.symm)]
    rfl

/-- C4 witness: the demo's own omitted-optional call
`utils.yet_more_args([1,2,3],1234)` (src/demo.c line 394) over the
signature "Vi|N?*" - two required directives plus the one optional
presence-checked directive c and the variadic marker: the call succeeds,
c's presence flag is false, the capture stays (0, []), and a
pre-initialized slot value 9 survives. -/
theorem claim_C4_witness :
    krk_parseArgsSig
        ([⟨.V, false, false, false, false⟩, ⟨.i, false, false, false, false⟩]
          ++ [⟨.N, false, true, true, false⟩], true)
        (["a", "b"] ++ ["c"]) [] [.obj "list" 0, .int 1234] [] =
      .ok ⟨[Option.some (.obj "list" 0), Option.some (.int 1234)] ++ [Option.none],
           [Option.none, Option.none] ++ [Option.some false],
           [true, true] ++ [false], Option.some 0, Option.some []⟩ ∧
    finalSlots ([.int 0, .int 0] ++ [.int 9])
        ([Option.some (.obj "list" 0), Option.some (.int 1234)] ++ [Option.none]) =
      finalSlots [.int 0, .int 0] [Option.some (.obj "list" 0), Option.some (.int 1234)]
        ++ [.int 9] :=
  claim_C4 [⟨.V, false, false, false, false⟩, ⟨.i, false, false, false, false⟩]
    ["a", "b"] [] [.obj "list" 0, .int 1234] [] true
    ⟨.N, false, true, true, false⟩ "c"
    ⟨[Option.some (.obj "list" 0), Option.some (.int 1234)], [Option.none, Option.none],
     [true, true], Option.some 0, Option.some []⟩
    [.int 0, .int 0] (.int 9) (by decide) rfl (fun _ => rfl) rfl rfl rfl

/-! ### Helper lemmas about the Text Builder -/

/-- Appending a chunk appends exactly its bytes. -/
theorem pushStr_bytes (sb : StringBuilder) (s : List Char) :
    (pushStringBuilderStr sb s).bytes = sb.bytes ++ s := rfl

/-- Appending a chunk that fits leaves the capacity unchanged. -/
theorem pushStr_capacity_of_fits (sb : StringBuilder) (s : List Char)
    (h : sb.bytes.length + s.length ≤ sb.capacity) :
    (pushStringBuilderStr sb s).capacity = sb.capacity := by
  simp [pushStringBuilderStr, sbGrow, h]

/-- A chunk append never shrinks the capacity. -/
theorem pushStr_capacity_mono (sb : StringBuilder) (s : List Char) :
    sb.capacity ≤ (pushStringBuilderStr sb s).capacity := by
  simp only [pushStringBuilderStr, sbGrow]
  by_cases h : sb.bytes.length + s.length ≤ sb.capacity
  · simp [h]
  · simp only [h, if_false]
    omega

/-- After any chunk append the logical length is within the capacity. -/
theorem pushStr_len_le (sb : StringBuilder) (s : List Char) :
    (pushStringBuilderStr sb s).bytes.length ≤ (pushStringBuilderStr sb s).capacity := by
  simp only [pushStringBuilderStr, sbGrow, List.length_append]
  by_cases h : sb.bytes.length + s.length ≤ sb.capacity
  · simp [h]
  · simp only [h, if_false]
    omega

/-- Every successful directive rendering is a single chunk append. -/
theorem fmtDirective_push (sb : StringBuilder) (c : Char) (args : List FmtArg)
    (sb' : StringBuilder) (args' : List FmtArg)
    (h : fmtDirective sb c args = Option.some (sb', args')) :
    ∃ s : List Char, sb' = pushStringBuilderStr sb s := by
  unfold fmtDirective at h
  split at h <;>
    first
      | exact Option.noConfusion h
      | (simp only [Option.some.injEq, Prod.mk.injEq] at h
         exact ⟨_, h.1.symm⟩)

/-- Over any template, an Append-formatted run never shrinks the capacity
and preserves the length-within-capacity invariant, whether it succeeds or
fails part-way. -/
theorem runFormat_caps (n : Nat) :
    ∀ (l : List Char), l.length ≤ n → ∀ (sb : StringBuilder) (args : List FmtArg),
    sb.capacity ≤ (runFormat sb l args).2.capacity ∧
    (sb.bytes.length ≤ sb.capacity →
      (runFormat sb l args).2.bytes.length ≤ (runFormat sb l args).2.capacity) := by
  induction n with
  | zero =>
    intro l hl sb args
    rw [List.length_eq_zero.mp (Nat.le_zero.mp hl)]
    exact ⟨Nat.le_refl _, fun h => h⟩
  | succ n ih =>
    intro l hl sb args
    cases l with
    | nil => exact ⟨Nat.le_refl _, fun h => h⟩
    | cons ch rest =>
      unfold runFormat
      by_cases hch : ch == '%'
      · simp only [hch, if_true]
        cases rest with
        | nil => exact ⟨Nat.le_refl _, fun h => h⟩
        | cons c1 rest1 =>
          by_cases hm : isSizeMod c1
          · simp only [hm, if_true]
            cases rest1 with
            | nil => exact ⟨Nat.le_refl _, fun h => h⟩
            | cons c2 rest2 =>
              dsimp only
              cases hd : fmtDirective sb c2 args with
              | none => exact ⟨Nat.le_refl _, fun h => h⟩
              | some r =>
                obtain ⟨sb2, args2⟩ := r
                obtain ⟨s, rfl⟩ := fmtDirective_push sb c2 args sb2 args2 hd
                have hlen : rest2.length ≤ n := by
                  simp only [List.length_cons] at hl
                  omega
                obtain ⟨ihm, ihv⟩ := ih rest2 hlen (pushStringBuilderStr sb s) args2
                refine ⟨Nat.le_trans (pushStr_capacity_mono sb s) ihm, fun _ => ?_⟩
                exact ihv (pushStr_len_le sb s)
          · simp only [hm, Bool.false_eq_true, if_false]
            cases hd : fmtDirective sb c1 args with
            | none => exact ⟨Nat.le_refl _, fun h => h⟩
            | some r =>
              obtain ⟨sb1, args1⟩ := r
              obtain ⟨s, rfl⟩ := fmtDirective_push sb c1 args sb1 args1 hd
              have hlen : rest1.length ≤ n := by
                simp only [List.length_cons] at hl
                omega
              obtain ⟨ihm, ihv⟩ := ih rest1 hlen (pushStringBuilderStr sb s) args1
              refine ⟨Nat.le_trans (pushStr_capacity_mono sb s) ihm, fun _ => ?_⟩
              exact ihv (pushStr_len_le sb s)
      · simp only [hch, Bool.false_eq_true, if_false]
        have hlen : rest.length ≤ n := by
          simp only [List.length_cons] at hl
          omega
        obtain ⟨ihm, ihv⟩ := ih rest hlen (pushStringBuilderStr sb [ch]) args
        refine ⟨Nat.le_trans (pushStr_capacity_mono sb [ch]) ihm, fun _ => ?_⟩
        exact ihv (pushStr_len_le sb [ch])

/-- One Append-formatted operation never shrinks the capacity and keeps the
length within the capacity. -/
theorem pushFormat_step (sb : StringBuilder) (t : String) (args : List FmtArg)
    (hinv : sb.bytes.length ≤ sb.capacity) :
    sb.capacity ≤ (krk_pushStringBuilderFormat sb t args).2.capacity ∧
    (krk_pushStringBuilderFormat sb t args).2.bytes.length ≤
      (krk_pushStringBuilderFormat sb t args).2.capacity := by
  obtain ⟨hm, hv⟩ := runFormat_caps t.toList.length t.toList (Nat.le_refl _) sb args
  exact ⟨hm, hv hinv⟩

/-- Folding a list of chunk appends appends their concatenation, and leaves
the capacity unchanged when the whole concatenation fits the preexisting
capacity. -/
theorem pushChunks_spec (chunks : List (List Char)) :
    ∀ sb : StringBuilder,
    (chunks.foldl pushStringBuilderStr sb).bytes = sb.bytes ++ chunks.flatten ∧
    (sb.bytes.length + chunks.flatten.length ≤ sb.capacity →
      (chunks.foldl pushStringBuilderStr sb).capacity = sb.capacity) := by
  induction chunks with
  | nil =>
    intro sb
    simp
  | cons c cs ih =>
    intro sb
    obtain ⟨ihb, ihc⟩ := ih (pushStringBuilderStr sb c)
    constructor
    · simp only [List.foldl_cons, ihb, pushStr_bytes, List.flatten_cons, List.append_assoc]
    · intro hfit
      simp only [List.flatten_cons, List.length_append] at hfit
      have hc : sb.bytes.length + c.length ≤ sb.capacity := by omega
      have hcap := pushStr_capacity_of_fits sb c hc
      simp only [List.foldl_cons]
      rw [ihc, hcap]
      rw [pushStr_bytes, hcap, List.length_append]
      omega


/-- C7: appending the template "val=%d end" with the single integer value 5
appends exactly the bytes "val=5 end" (literals verbatim, %d rendering the
integer), succeeds, and the capacity changes only if the preexisting
capacity was insufficient for the appended bytes (content length 9). -/
theorem claim_C7 (sb : StringBuilder) :
    ∃ sb' : StringBuilder,
      krk_pushStringBuilderFormat sb "val=%d end" [.intArg 5] = (true, sb') ∧
      sb'.bytes = sb.bytes ++ ("val=5 end").toList ∧
      (sb.bytes.length + 9 ≤ sb.capacity → sb'.capacity = sb.capacity) := by
  have hrun : krk_pushStringBuilderFormat sb "val=%d end" [.intArg 5] =
      (true, [['v'], ['a'], ['l'], ['='], ['5'], [' '], ['e'], ['n'], ['d']].foldl
        pushStringBuilderStr sb) := rfl
  obtain ⟨hbytes, hcap⟩ :=
    pushChunks_spec [['v'], ['a'], ['l'], ['='], ['5'], [' '], ['e'], ['n'], ['d']] sb
  refine ⟨_, hrun, ?_, ?_⟩
  · rw [hbytes]
    rfl
  · intro hfit
    exact hcap (by simpa using hfit)

/-- C7 witness: from an empty buffer of capacity 16 (sufficient), the
append produces exactly "val=5 end" and the capacity stays 16. -/
theorem claim_C7_witness :
    (0 : Nat) + 9 ≤ 16 ∧
    ∃ sb' : StringBuilder,
      krk_pushStringBuilderFormat ⟨[], 16⟩ "val=%d end" [.intArg 5] = (true, sb') ∧
      sb'.bytes = ([] : List Char) ++ ("val=5 end").toList ∧
      (([] : List Char).length + 9 ≤ 16 → sb'.capacity = 16) :=
  ⟨by omega, claim_C7 ⟨[], 16⟩⟩


/-- The operation trace from a given valid buffer keeps length within
capacity at every state and never shrinks the capacity. -/
theorem runOps_spec (ops : List (String × List FmtArg)) :
    ∀ sb : StringBuilder, sb.bytes.length ≤ sb.capacity →
    (∀ s ∈ runOps sb ops, s.bytes.length ≤ s.capacity) ∧
    (sb :: runOps sb ops).Chain' (fun a b => a.capacity ≤ b.capacity) := by
  induction ops with
  | nil =>
    intro sb hinv
    exact ⟨fun s hs => absurd hs (List.not_mem_nil s), List.chain'_singleton sb⟩
  | cons op rest ih =>
    intro sb hinv
    obtain ⟨t, as⟩ := op
    obtain ⟨hmono, hinv'⟩ := pushFormat_step sb t as hinv
    obtain ⟨ih1, ih2⟩ := ih (krk_pushStringBuilderFormat sb t as).2 hinv'
    constructor
    · intro s hs
      simp only [runOps, List.mem_cons] at hs
      rcases hs with hs | hs
      · rw [hs]; exact hinv'
      · exact ih1 s hs
    · simp only [runOps]
      exact List.chain'_cons.mpr ⟨hmono, ih2⟩

/-- C8: over any sequence of Append-formatted operations from construction
until release, every intermediate buffer state has its logical length at
most its capacity, and the capacity never decreases from one state to the
next. -/
theorem claim_C8 (ops : List (String × List FmtArg)) :
    (∀ s ∈ sbTrace ops, s.bytes.length ≤ s.capacity) ∧
    (sbTrace ops).Chain' (fun a b => a.capacity ≤ b.capacity) := by
  obtain ⟨h1, h2⟩ := runOps_spec ops sbInit (Nat.le_refl 0)
  refine ⟨?_, h2⟩
  intro s hs
  simp only [sbTrace, List.mem_cons] at hs
  rcases hs with hs | hs
  · rw [hs]; exact Nat.le_refl 0
  · exact h1 s hs

/-- C8 witness: on a concrete two-operation trace, the final state (content
"abval=5 end" of length 11, capacity 16) satisfies the
length-within-capacity invariant. -/
theorem claim_C8_witness :
    (⟨("abval=5 end").toList, 16⟩ : StringBuilder).bytes.length ≤
      (⟨("abval=5 end").toList, 16⟩ : StringBuilder).capacity :=
  (claim_C8 [("ab", []), ("val=%d end", [.intArg 5])]).1
    ⟨("abval=5 end").toList, 16⟩ (by decide)

/-- C9: the discard call of yet_more_args is reached exactly when all four
krk_pushStringBuilderFormat calls succeed; in particular the early-return
path taken when the first push fails skips krk_discardStringBuilder, so the
builder is not released on every exit path. -/
theorem claim_C9 :
    (∀ ok1 ok2 ok3 ok4 : Bool,
      yetMoreArgsDiscards ok1 ok2 ok3 ok4 = (ok1 && ok2 && ok3 && ok4)) ∧
    yetMoreArgsDiscards false true true true = false ∧
    yetMoreArgsDiscards true false true true = false ∧
    yetMoreArgsDiscards true true false true = false ∧
    yetMoreArgsDiscards true true true false = false ∧
    yetMoreArgsDiscards true true true true = true := by
  refine ⟨?_, rfl, rfl, rfl, rfl, rfl⟩
  intro ok1 ok2 ok3 ok4
  cases ok1 <;> cases ok2 <;> cases ok3 <;> cases ok4 <;> rfl

set_option maxRecDepth 8000 in
/-- C10: when all four pushes of yet_more_args succeed, the fwrite at
src/demo.c line 196 emits exactly sb.capacity bytes of the builder's
physical region - the full capacity, not the logical length; on the demo
call `yet_more_args({1,2,3},420,69,'a','b','c')` the final capacity (128)
exceeds the logical length (109), so 19 uninitialized bytes beyond the
appended content are emitted as well. -/
theorem claim_C10 :
    (∀ (a : KrkValue) (b : Int) (cPresent : Bool) (c : Nat) (rc : Int)
        (sb : StringBuilder),
      yetMoreArgsBuild a b cPresent c rc = (true, sb) →
      yetMoreArgsEmitted a b cPresent c rc =
        Option.some ((regionBytes sb).take sb.capacity) ∧
      ((regionBytes sb).take sb.capacity).length = sb.capacity) ∧
    (∃ sb : StringBuilder,
      yetMoreArgsBuild (.obj "set" 0) 420 true 69 3 = (true, sb) ∧
      sb.bytes.length = 109 ∧ sb.capacity = 128 ∧
      sb.bytes.length < sb.capacity ∧
      ((regionBytes sb).take sb.capacity).length = sb.capacity) := by
  have hlen : ∀ sb : StringBuilder,
      ((regionBytes sb).take sb.capacity).length = sb.capacity := by
    intro sb
    simp only [List.length_take, regionBytes, List.length_append, List.length_replicate]
    omega
  constructor
  · intro a b cPresent c rc sb h
    refine ⟨?_, hlen sb⟩
    unfold yetMoreArgsEmitted
    rw [h]
  · refine ⟨⟨("Received a set that looks like <set object>, the value 420, " ++
        "c was 69, and there were 3 additional arguments.\n").toList, 128⟩,
      rfl, by decide, rfl, by decide, hlen _⟩


set_option maxRecDepth 8000 in
/-- C10 witness: on the demo call the emitted region is the 128-byte-capacity
truncation of the physical region, 128 bytes long, although only 109 bytes
of content were appended. -/
theorem claim_C10_witness :
    yetMoreArgsEmitted (.obj "set" 0) 420 true 69 3 =
      Option.some ((regionBytes ⟨("Received a set that looks like <set object>, " ++
        "the value 420, c was 69, and there were 3 additional arguments.\n").toList,
        128⟩).take 128) ∧
    ((regionBytes (⟨("Received a set that looks like <set object>, " ++
        "the value 420, c was 69, and there were 3 additional arguments.\n").toList,
        128⟩ : StringBuilder)).take 128).length = 128 :=
  claim_C10.1 (.obj "set" 0) 420 true 69 3
    ⟨("Received a set that looks like <set object>, " ++
      "the value 420, c was 69, and there were 3 additional arguments.\n").toList, 128⟩ rfl

end KurokoDemo